import Mathlib

/-!
# Verification of the social grouping engine

A shallow embedding of `social_grouping_program.py` and
`social_grouping_analyzer.py`: the meeting ledger, the partition cost
model, the randomized search loop (with its random shuffles made an
explicit input trace), the round orchestrator, and the combinatorial
bound analyzer.  Python machine integers are modelled as `Nat`/`Int`
(Python integers are unbounded); Python `%` and `//` on `Int` are
`Int.fmod`/`Int.fdiv` (floor semantics, matching Python); the analyzer's
floating-point quantities (`max_theoretical_rounds` and its `int(...)`
truncation) are outside the embedding and omitted, keeping only the
`ZeroDivisionError` their division raises on a zero divisor; raised
exceptions become `Except` error values.
-/

namespace SocialGrouping

/-- A participant: `Person(nickname, gender)` from
`social_grouping_program.py`.  Identity (`__eq__`/`__hash__`) is the
nickname; the `id` field of the source duplicates the nickname and is
omitted. -/
structure Person where
  nickname : String
  gender : String
deriving DecidableEq, BEq, Repr

/-- The canonical unordered pair key used by `add_meetings`:
`(p1, p2)` if `p1 < p2` else `(p2, p1)` (lexicographic on nicknames). -/
def canonPair (a b : String) : String × String :=
  if a < b then (a, b) else (b, a)

/-- The meeting ledger `previous_meetings`: a set of canonical pair
keys. -/
abbrev Ledger := Finset (String × String)

/-- All pair keys of a single group, enumerating each unordered pair of
positions `i < j` exactly once (the double loop of `add_meetings` /
`calculate_group_score`). -/
def groupPairs : List Person → List (String × String)
  | [] => []
  | p :: rest => (rest.map fun q => canonPair p.nickname q.nickname) ++ groupPairs rest

/-- Session state of `SocialGroupingProgram`. -/
structure ProgramState where
  people : List Person
  group_size : Nat
  num_groups : Nat
  previous_meetings : Ledger
  round_history : List (List (List Person))
  current_round : Nat
deriving DecidableEq

/-- Source `SocialGroupingProgram.__init__`: stores the inputs, computes
`num_groups = len(people) // group_size`, and starts with an empty
ledger and history.  The source performs no validation of the
parameters (it only prints a banner), so construction is modelled as
total; the one failure the source could hit is `ZeroDivisionError` in
the `//` at `group_size = 0` (Lean's `Nat` division returns 0 there),
and every theorem below that invokes this constructor does so with a
positive `group_size`. -/
def programInit (people : List Person) (group_size : Nat) : ProgramState :=
  { people := people
    group_size := group_size
    num_groups := people.length / group_size
    previous_meetings := ∅
    round_history := []
    current_round := 0 }

/-- Source `add_meetings`: record every canonical pair key of every group into
the ledger (set insertion, so re-recording is a no-op). -/
def add_meetings (groups : List (List Person)) (prev : Ledger) : Ledger :=
  groups.foldl (fun acc g => (groupPairs g).foldl (fun a k => insert k a) acc) prev

/-- Source `get_meeting_count`: 1 if the canonical pair key of the two people
is in the ledger, else 0.  (`tuple(sorted([n1, n2]))` computes exactly
the canonical pair key.) -/
def get_meeting_count (prev : Ledger) (p q : Person) : Nat :=
  if canonPair p.nickname q.nickname ∈ prev then 1 else 0

/-- Source `calculate_group_score`: the number of pairs `i < j` of the group
whose canonical key is already in the ledger. -/
def calculate_group_score (prev : Ledger) : List Person → Nat
  | [] => 0
  | p :: rest => (rest.map (get_meeting_count prev p)).sum + calculate_group_score prev rest

/-- The `male_count` value as computed inside `calculate_gender_balance_score` and
`print_groups`: the number of group members whose gender string equals
`"남"`. -/
def male_count (group : List Person) : Nat :=
  (group.filter fun p => p.gender = "남").length

/-- Source `calculate_gender_balance_score`: with `female_count = len(group) -
male_count`, `ideal_male = group_size // 2`, `ideal_female = group_size
- ideal_male`, returns `|male_count - ideal_male| + |female_count -
ideal_female|`. -/
def calculate_gender_balance_score (group_size : Nat) (group : List Person) : Nat :=
  ((male_count group : Int) - (group_size / 2 : Nat)).natAbs
    + (((group.length - male_count group : Nat) : Int)
        - ((group_size - group_size / 2 : Nat) : Int)).natAbs

/-- The loop body's score of a candidate partition in
`generate_groups_genetic`: per group, `calculate_group_score +
calculate_gender_balance_score * 2`, summed. -/
def totalScore (group_size : Nat) (prev : Ledger) (groups : List (List Person)) : Nat :=
  (groups.map fun g =>
    calculate_group_score prev g + calculate_gender_balance_score group_size g * 2).sum

/-- The set of pair keys of a round's groups (the keys `add_meetings`
inserts). -/
def roundPairs : List (List Person) → Finset (String × String)
  | [] => ∅
  | g :: rest => (groupPairs g).toFinset ∪ roundPairs rest

lemma foldl_insert_eq_union (l : List (String × String)) (acc : Finset (String × String)) :
    l.foldl (fun a k => insert k a) acc = acc ∪ l.toFinset := by
  induction l generalizing acc with
  | nil => simp
  | cons k t ih =>
    simp only [List.foldl_cons, ih, List.toFinset_cons]
    ext x
    simp only [Finset.mem_union, Finset.mem_insert]
    tauto

lemma add_meetings_eq_union (groups : List (List Person)) (prev : Ledger) :
    add_meetings groups prev = prev ∪ roundPairs groups := by
  induction groups generalizing prev with
  | nil => simp [add_meetings, roundPairs]
  | cons g rest ih =>
    have step : add_meetings (g :: rest) prev
        = add_meetings rest ((groupPairs g).foldl (fun a k => insert k a) prev) := rfl
    rw [step, ih, foldl_insert_eq_union]
    show (prev ∪ (groupPairs g).toFinset) ∪ roundPairs rest
        = prev ∪ ((groupPairs g).toFinset ∪ roundPairs rest)
    rw [Finset.union_assoc]

/-- One iteration's candidate partition in `generate_groups_genetic`:
slice the shuffled population into `num_groups` contiguous blocks of
`group_size` (`shuffled_people[i*gs : i*gs + gs]`). -/
def sliceGroups (num_groups group_size : Nat) (people : List Person) : List (List Person) :=
  (List.range num_groups).map fun i => (people.drop (i * group_size)).take group_size

/-- The loop of `generate_groups_genetic`, with the per-iteration random
shuffles supplied as an explicit trace (one shuffled population list per
iteration; the trace length is the iteration budget `max_iterations`).
`best` carries `(best_groups, best_score)`, `none` standing for the
initial `best_groups = None / best_score = inf`.  A strictly better
candidate replaces the best; immediately after an update to score 0 the
loop breaks. -/
def generateLoop (group_size num_groups : Nat) (prev : Ledger) :
    List (List Person) → Option (List (List Person) × Nat) →
      Option (List (List Person) × Nat)
  | [], best => best
  | s :: rest, best =>
    let groups := sliceGroups num_groups group_size s
    let sc := totalScore group_size prev groups
    match best with
    | none =>
      if sc = 0 then some (groups, sc)
      else generateLoop group_size num_groups prev rest (some (groups, sc))
    | some (bg, bs) =>
      if sc < bs then
        if sc = 0 then some (groups, sc)
        else generateLoop group_size num_groups prev rest (some (groups, sc))
      else generateLoop group_size num_groups prev rest (some (bg, bs))

/-- Source `generate_groups_genetic`: run the sampling loop over the shuffle
trace and return `best_groups` (`none` exactly when the budget was 0,
since `best_groups` starts as `None`). -/
def generate_groups_genetic (st : ProgramState) (shuffles : List (List Person)) :
    Option (List (List Person)) :=
  (generateLoop st.group_size st.num_groups st.previous_meetings shuffles none).map Prod.fst

/-- Source `create_new_round`: increment the round counter, run the search
engine, commit the returned groups to the ledger via `add_meetings`, and
append them to the history.  The source performs no validation of the
returned groups between search and commit; `none` models the crash the
source would incur (printing/iterating `None`) when the search returned
no groups. -/
def create_new_round (st0 : ProgramState) (shuffles : List (List Person)) :
    Option (List (List Person) × ProgramState) :=
  let st := { st0 with current_round := st0.current_round + 1 }
  (generate_groups_genetic st shuffles).map fun groups =>
    (groups, { st with
        previous_meetings := add_meetings groups st.previous_meetings
        round_history := st.round_history ++ [groups] })

/-- The three session operations the driver loop can invoke on the
engine ("go", "stat", "save"). -/
inductive Command where
  | go (shuffles : List (List Person))
  | stat
  | save

/-- The session-state transition of each operation: `go` runs
`create_new_round`; `show_statistics` and `save_history` only read the
state (their Python bodies assign no field of `self`), so they are
identities on the session state. -/
def sessionStep (st : ProgramState) : Command → Option ProgramState
  | .go shuffles => (create_new_round st shuffles).map Prod.snd
  | .stat => some st
  | .save => some st

/-- The exceptions `SocialGroupingAnalyzer.__init__` can raise:
`ValueError` (the explicit `N % n != 0` check) and `ZeroDivisionError`
(`N % 0` in that check, or `total_pairs / pairs_per_round` with
`pairs_per_round == 0`). -/
inductive AnalyzerError where
  | invalidConfiguration
  | zeroDivision
deriving DecidableEq, Repr

/-- The exactly-computed integer fields `SocialGroupingAnalyzer`
stores.  The source additionally stores `max_theoretical_rounds`
(a float: `total_pairs / pairs_per_round`, true division) and
`max_practical_rounds = int(max_theoretical_rounds)`; those two are
floating-point results — for large `N` the truncated float differs from
the exact floor of the rational quotient — and this integer embedding
does not model them. -/
structure Analyzer where
  N : Int
  n : Int
  num_groups : Int
  total_pairs : Int
  pairs_per_group : Int
  pairs_per_round : Int
deriving DecidableEq, Repr

/-- Source `SocialGroupingAnalyzer.__init__` together with
`_calculate_theoretical_limits`.  Python `%` and `//` are `Int.fmod` and
`Int.fdiv`; `N % 0` raises `ZeroDivisionError`; the explicit check
raises `ValueError` when `N % n != 0`; the float division
`total_pairs / pairs_per_round` raises `ZeroDivisionError` when
`pairs_per_round == 0` (the last guard — its only effect expressible
without floating point; the float quotient itself and its `int(...)`
truncation are omitted from the result, see `Analyzer`). -/
def analyzerInit (N n : Int) : Except AnalyzerError Analyzer :=
  if n = 0 then .error .zeroDivision
  else if Int.fmod N n ≠ 0 then .error .invalidConfiguration
  else if Int.fdiv N n * Int.fdiv (n * (n - 1)) 2 = 0 then .error .zeroDivision
  else .ok
    { N := N
      n := n
      num_groups := Int.fdiv N n
      total_pairs := Int.fdiv (N * (N - 1)) 2
      pairs_per_group := Int.fdiv (n * (n - 1)) 2
      pairs_per_round := Int.fdiv N n * Int.fdiv (n * (n - 1)) 2 }

lemma get_meeting_count_eq_zero_iff (prev : Ledger) (p q : Person) :
    get_meeting_count prev p q = 0 ↔ canonPair p.nickname q.nickname ∉ prev := by
  unfold get_meeting_count
  split <;> simp_all

lemma calculate_group_score_eq_zero_iff (prev : Ledger) (g : List Person) :
    calculate_group_score prev g = 0 ↔ ∀ k ∈ groupPairs g, k ∉ prev := by
  induction g with
  | nil => simp [calculate_group_score, groupPairs]
  | cons p rest ih =>
    simp only [calculate_group_score, groupPairs, Nat.add_eq_zero, ih,
      List.sum_eq_zero_iff, List.mem_append, List.mem_map]
    constructor
    · rintro ⟨h1, h2⟩ k hk
      rcases hk with ⟨q, hq, rfl⟩ | hk
      · have := h1 _ ⟨q, hq, rfl⟩
        rwa [get_meeting_count_eq_zero_iff] at this
      · exact h2 k hk
    · intro h
      refine ⟨?_, fun k hk => h k (Or.inr hk)⟩
      rintro x ⟨q, hq, rfl⟩
      rw [get_meeting_count_eq_zero_iff]
      exact h _ (Or.inl ⟨q, hq, rfl⟩)

lemma balance_eq_zero_iff (group_size : Nat) (g : List Person) :
    calculate_gender_balance_score group_size g = 0 ↔
      (male_count g = group_size / 2 ∧
       g.length - male_count g = group_size - group_size / 2) := by
  unfold calculate_gender_balance_score
  rw [Nat.add_eq_zero]
  simp only [Int.natAbs_eq_zero, sub_eq_zero, Nat.cast_inj]

/-- Claim C2: the cost of a partition is zero exactly when every pair inside
every group is absent from the ledger and every group's gender counts
are exactly the ideal split `group_size / 2` vs `group_size -
group_size / 2` (the second category being everyone not labelled
`"남"`, counted as `len(group) - male_count`). -/
theorem cost_zero_iff_no_repeats_and_balanced (group_size : Nat) (prev : Ledger)
    (partition : List (List Person)) :
    totalScore group_size prev partition = 0 ↔
      ((∀ g ∈ partition, ∀ k ∈ groupPairs g, k ∉ prev) ∧
       (∀ g ∈ partition, male_count g = group_size / 2 ∧
          g.length - male_count g = group_size - group_size / 2)) := by
  unfold totalScore
  rw [List.sum_eq_zero_iff]
  constructor
  · intro h
    constructor
    · intro g hg
      have := h _ (List.mem_map_of_mem _ hg)
      rw [Nat.add_eq_zero, Nat.mul_eq_zero] at this
      rw [← calculate_group_score_eq_zero_iff]
      exact this.1
    · intro g hg
      have := h _ (List.mem_map_of_mem _ hg)
      rw [Nat.add_eq_zero, Nat.mul_eq_zero] at this
      rw [← balance_eq_zero_iff group_size g]
      rcases this.2 with h2 | h2
      · exact h2
      · exact absurd h2 (by norm_num)
  · rintro ⟨h1, h2⟩ x hx
    rw [List.mem_map] at hx
    obtain ⟨g, hg, rfl⟩ := hx
    rw [Nat.add_eq_zero, Nat.mul_eq_zero]
    exact ⟨(calculate_group_score_eq_zero_iff prev g).mpr (h1 g hg),
      Or.inl ((balance_eq_zero_iff group_size g).mpr (h2 g hg))⟩

/-- Claim C4: committing a round's groups unions exactly the groups' canonical
pair keys into the ledger: the newly added keys are those absent
beforehand, re-recording the same groups is a no-op, and the ledger size
never decreases. -/
theorem ledger_commit_adds_exactly_new_pairs (groups : List (List Person)) (prev : Ledger) :
    add_meetings groups prev = prev ∪ roundPairs groups
    ∧ (add_meetings groups prev) \ prev = roundPairs groups \ prev
    ∧ add_meetings groups (add_meetings groups prev) = add_meetings groups prev
    ∧ prev.card ≤ (add_meetings groups prev).card := by
  have h := add_meetings_eq_union groups prev
  refine ⟨h, ?_, ?_, ?_⟩
  · rw [h]
    ext x
    simp only [Finset.mem_sdiff, Finset.mem_union]
    tauto
  · rw [add_meetings_eq_union, h]
    ext x
    simp only [Finset.mem_union]
    tauto
  · rw [h]
    exact Finset.card_le_card Finset.subset_union_left

lemma generateLoop_none_iff (gs ng : Nat) (prev : Ledger) :
    ∀ (shuffles : List (List Person)) (best : Option (List (List Person) × Nat)),
      generateLoop gs ng prev shuffles best = none ↔ (best = none ∧ shuffles = []) := by
  intro shuffles
  induction shuffles with
  | nil => intro best; simp [generateLoop]
  | cons s rest ih =>
    intro best
    cases best with
    | none =>
      simp only [generateLoop]
      split
      · simp
      · simp [ih]
    | some b =>
      obtain ⟨bg, bs⟩ := b
      simp only [generateLoop]
      split
      · split
        · simp
        · simp [ih]
      · simp [ih]

lemma generateLoop_spec (gs ng : Nat) (prev : Ledger) :
    ∀ (shuffles : List (List Person)) (best : Option (List (List Person) × Nat))
      (g : List (List Person)) (sc : Nat),
      generateLoop gs ng prev shuffles best = some (g, sc) →
      (∀ bg bs, best = some (bg, bs) → bs = totalScore gs prev bg) →
      sc = totalScore gs prev g
      ∧ (∀ s ∈ shuffles, sc ≤ totalScore gs prev (sliceGroups ng gs s))
      ∧ (∀ bg bs, best = some (bg, bs) → sc ≤ bs)
      ∧ ((∃ s ∈ shuffles, g = sliceGroups ng gs s) ∨ best = some (g, sc)) := by
  intro shuffles
  induction shuffles with
  | nil =>
    intro best g sc hrun hwf
    have hbest : best = some (g, sc) := hrun
    refine ⟨hwf _ _ hbest, by simp, ?_, Or.inr hbest⟩
    intro bg bs hbs
    rw [hbest] at hbs
    cases hbs
    exact le_rfl
  | cons s rest ih =>
    intro best g sc hrun hwf
    cases best with
    | none =>
      simp only [generateLoop] at hrun
      split at hrun
      · rename_i h0
        cases hrun
        refine ⟨rfl, ?_, ?_, ?_⟩
        · intro s' _
          rw [h0]
          exact Nat.zero_le _
        · intro bg bs h
          simp at h
        · exact Or.inl ⟨s, by simp, rfl⟩
      · rename_i h0
        have hres := ih (some (sliceGroups ng gs s, totalScore gs prev (sliceGroups ng gs s)))
          g sc hrun ?_
        · obtain ⟨h1, h2, h3, h4⟩ := hres
          refine ⟨h1, ?_, ?_, ?_⟩
          · intro s' hs'
            rcases List.mem_cons.mp hs' with rfl | hmem
            · exact h3 _ _ rfl
            · exact h2 _ hmem
          · intro bg bs h
            simp at h
          · rcases h4 with h4 | h4
            · obtain ⟨s', hs', rfl⟩ := h4
              exact Or.inl ⟨s', by simp [hs'], rfl⟩
            · rw [Option.some_inj, Prod.mk.injEq] at h4
              exact Or.inl ⟨s, by simp, h4.1.symm⟩
        · intro bg bs h
          rw [Option.some_inj, Prod.mk.injEq] at h
          rw [← h.1, ← h.2]
    | some b =>
      obtain ⟨bg, bs⟩ := b
      have hbs : bs = totalScore gs prev bg := hwf _ _ rfl
      simp only [generateLoop] at hrun
      split at hrun
      · rename_i hlt
        split at hrun
        · rename_i h0
          cases hrun
          refine ⟨rfl, ?_, ?_, ?_⟩
          · intro s' _
            rw [h0]
            exact Nat.zero_le _
          · intro bg' bs' h
            rw [h0]
            exact Nat.zero_le _
          · exact Or.inl ⟨s, by simp, rfl⟩
        · rename_i h0
          have hres := ih (some (sliceGroups ng gs s, totalScore gs prev (sliceGroups ng gs s)))
            g sc hrun ?_
          · obtain ⟨h1, h2, h3, h4⟩ := hres
            have hle : sc ≤ totalScore gs prev (sliceGroups ng gs s) := h3 _ _ rfl
            refine ⟨h1, ?_, ?_, ?_⟩
            · intro s' hs'
              rcases List.mem_cons.mp hs' with rfl | hmem
              · exact hle
              · exact h2 _ hmem
            · intro bg' bs' h
              rw [Option.some_inj, Prod.mk.injEq] at h
              rw [← h.2]
              exact le_of_lt (lt_of_le_of_lt hle hlt)
            · rcases h4 with h4 | h4
              · obtain ⟨s', hs', rfl⟩ := h4
                exact Or.inl ⟨s', by simp [hs'], rfl⟩
              · rw [Option.some_inj, Prod.mk.injEq] at h4
                exact Or.inl ⟨s, by simp, h4.1.symm⟩
          · intro bg' bs' h
            rw [Option.some_inj, Prod.mk.injEq] at h
            rw [← h.1, ← h.2]
      · rename_i hlt
        have hres := ih (some (bg, bs)) g sc hrun ?_
        · obtain ⟨h1, h2, h3, h4⟩ := hres
          have hle : sc ≤ bs := h3 _ _ rfl
          refine ⟨h1, ?_, ?_, ?_⟩
          · intro s' hs'
            rcases List.mem_cons.mp hs' with rfl | hmem
            · exact le_trans hle (Nat.le_of_not_lt hlt)
            · exact h2 _ hmem
          · intro bg' bs' h
            rw [Option.some_inj, Prod.mk.injEq] at h
            rw [← h.2]
            exact hle
          · rcases h4 with h4 | h4
            · obtain ⟨s', hs', rfl⟩ := h4
              exact Or.inl ⟨s', by simp [hs'], rfl⟩
            · exact Or.inr h4
        · intro bg' bs' h
          rw [Option.some_inj, Prod.mk.injEq] at h
          rw [← h.1, ← h.2]
          exact hbs

lemma generateLoop_stays_at_zero (gs ng : Nat) (prev : Ledger) :
    ∀ (rest : List (List Person)) (bg : List (List Person)),
      generateLoop gs ng prev rest (some (bg, 0)) = some (bg, 0) := by
  intro rest
  induction rest with
  | nil => intro bg; rfl
  | cons s t ih =>
    intro bg
    simp only [generateLoop]
    rw [if_neg (Nat.not_lt_zero _)]
    exact ih bg

lemma generateLoop_early_exit (gs ng : Nat) (prev : Ledger) :
    ∀ (pre : List (List Person)) (s : List Person) (rest : List (List Person))
      (best : Option (List (List Person) × Nat)),
      totalScore gs prev (sliceGroups ng gs s) = 0 →
      generateLoop gs ng prev (pre ++ s :: rest) best
        = generateLoop gs ng prev (pre ++ [s]) best := by
  intro pre
  induction pre with
  | nil =>
    intro s rest best h0
    simp only [List.nil_append]
    cases best with
    | none => simp [generateLoop, h0]
    | some b =>
      obtain ⟨bg, bs⟩ := b
      rcases Nat.eq_zero_or_pos bs with hbs | hbs
      · subst hbs
        rw [generateLoop_stays_at_zero, generateLoop_stays_at_zero]
      · have hlt : totalScore gs prev (sliceGroups ng gs s) < bs := h0 ▸ hbs
        simp [generateLoop, h0, hlt, hbs]
  | cons p pre' ih =>
    intro s rest best h0
    simp only [List.cons_append]
    cases best with
    | none =>
      by_cases hp : totalScore gs prev (sliceGroups ng gs p) = 0
      · simp [generateLoop, hp]
      · simp only [generateLoop, if_neg hp]
        exact ih s rest _ h0
    | some b =>
      obtain ⟨bg, bs⟩ := b
      by_cases hlt : totalScore gs prev (sliceGroups ng gs p) < bs
      · by_cases hp : totalScore gs prev (sliceGroups ng gs p) = 0
        · have hbs0 : 0 < bs := hp ▸ hlt
          simp [generateLoop, hlt, hp, hbs0]
        · simp only [generateLoop, if_pos hlt, if_neg hp]
          exact ih s rest _ h0
      · simp only [generateLoop, if_neg hlt]
        exact ih s rest _ h0

/-- Claim C3: on a nonempty shuffle trace (iteration budget at least 1), the
search engine returns one of the sampled candidate partitions, its cost
is minimal among all candidates of the trace (best-so-far retention),
the loop stops as soon as a candidate of cost 0 is reached (the result
does not depend on the remainder of the trace), and a best-found
partition is returned even when no candidate reached cost 0. -/
theorem search_returns_sampled_minimum (st : ProgramState)
    (shuffles : List (List Person)) (hne : shuffles ≠ []) :
    (∃ g, generate_groups_genetic st shuffles = some g
      ∧ (∃ s ∈ shuffles, g = sliceGroups st.num_groups st.group_size s)
      ∧ (∀ s ∈ shuffles,
          totalScore st.group_size st.previous_meetings g
            ≤ totalScore st.group_size st.previous_meetings
                (sliceGroups st.num_groups st.group_size s)))
    ∧ (∀ pre s rest, shuffles = pre ++ s :: rest →
        totalScore st.group_size st.previous_meetings
            (sliceGroups st.num_groups st.group_size s) = 0 →
        generate_groups_genetic st shuffles = generate_groups_genetic st (pre ++ [s])) := by
  constructor
  · cases hopt : generateLoop st.group_size st.num_groups st.previous_meetings shuffles none with
    | none =>
      rw [generateLoop_none_iff] at hopt
      exact absurd hopt.2 hne
    | some b =>
      obtain ⟨g, sc⟩ := b
      obtain ⟨h1, h2, _, h4⟩ := generateLoop_spec st.group_size st.num_groups
        st.previous_meetings shuffles none g sc hopt (by intro bg bs h; cases h)
      refine ⟨g, ?_, ?_, ?_⟩
      · unfold generate_groups_genetic
        rw [hopt]
        rfl
      · rcases h4 with h4 | h4
        · exact h4
        · cases h4
      · intro s hs
        rw [← h1]
        exact h2 s hs
  · intro pre s rest heq h0
    subst heq
    unfold generate_groups_genetic
    rw [generateLoop_early_exit _ _ _ pre s rest none h0]

/-- Claim C9: the search engine returns no partition exactly when the
iteration budget (the shuffle trace) is empty: `best_groups` starts as
`None` and a partition is produced whenever at least one iteration
runs. -/
theorem search_none_iff_budget_zero (st : ProgramState) (shuffles : List (List Person)) :
    generate_groups_genetic st shuffles = none ↔ shuffles = [] := by
  unfold generate_groups_genetic
  rw [Option.map_eq_none', generateLoop_none_iff]
  simp

/-- Concrete five-person population used to exercise the constructors
and the round orchestrator with parameters where `N mod k != 0`. -/
def cxPeople : List Person :=
  [⟨"a", "남"⟩, ⟨"b", "여"⟩, ⟨"c", "남"⟩, ⟨"d", "여"⟩, ⟨"e", "남"⟩]

/-- The session built from `cxPeople` with `group_size = 2` (so `N = 5`,
`k = 2`, `N mod k = 1`). -/
def cxState : ProgramState := programInit cxPeople 2

/-- Claim C10: the gender-balance score of a group of size `k` is a
function of the count `m` of members whose gender string equals the male
label only: it equals `|m - k/2| + |(k - m) - (k - k/2)|`, and any two
groups of equal length and equal male count score identically — every
member whose gender is any string other than `"남"` (not just the female
label) is counted in the second category. -/
theorem balance_score_depends_only_on_male_count (group_size : Nat) (g g2 : List Person)
    (hlen : g.length = group_size) (hlen2 : g2.length = g.length)
    (hm : male_count g2 = male_count g) :
    calculate_gender_balance_score group_size g
      = ((male_count g : Int) - ((group_size / 2 : Nat) : Int)).natAbs
        + (((group_size : Int) - (male_count g : Int))
            - ((group_size : Int) - ((group_size / 2 : Nat) : Int))).natAbs
    ∧ calculate_gender_balance_score group_size g2
        = calculate_gender_balance_score group_size g := by
  have hmle : male_count g ≤ g.length := List.length_filter_le _ _
  constructor
  · unfold calculate_gender_balance_score
    have h1 : ((g.length - male_count g : Nat) : Int)
        = (group_size : Int) - (male_count g : Int) := by
      rw [Nat.cast_sub hmle, hlen]
    have h2 : ((group_size - group_size / 2 : Nat) : Int)
        = (group_size : Int) - ((group_size / 2 : Nat) : Int) :=
      Nat.cast_sub (Nat.div_le_self _ _)
    rw [h1, h2]
  · unfold calculate_gender_balance_score
    rw [hm, hlen2]

/-- Witness for C10 at a concrete input: a group whose members carry
gender strings `"X"` and `"Y"` (neither the male nor the female label)
scores the same as a group with labels `"여"` and `"Z"`, both counting
zero members in the male category. -/
theorem balance_score_depends_only_on_male_count_witness :
    ([(⟨"a", "X"⟩ : Person), ⟨"b", "Y"⟩].length = 2
      ∧ [(⟨"c", "여"⟩ : Person), ⟨"d", "Z"⟩].length
          = [(⟨"a", "X"⟩ : Person), ⟨"b", "Y"⟩].length
      ∧ male_count [(⟨"c", "여"⟩ : Person), ⟨"d", "Z"⟩]
          = male_count [(⟨"a", "X"⟩ : Person), ⟨"b", "Y"⟩])
    ∧ (calculate_gender_balance_score 2 [(⟨"a", "X"⟩ : Person), ⟨"b", "Y"⟩]
        = ((male_count [(⟨"a", "X"⟩ : Person), ⟨"b", "Y"⟩] : Int)
            - (((2 : Nat) / 2 : Nat) : Int)).natAbs
          + ((((2 : Nat) : Int) - (male_count [(⟨"a", "X"⟩ : Person), ⟨"b", "Y"⟩] : Int))
              - (((2 : Nat) : Int) - (((2 : Nat) / 2 : Nat) : Int))).natAbs
      ∧ calculate_gender_balance_score 2 [(⟨"c", "여"⟩ : Person), ⟨"d", "Z"⟩]
          = calculate_gender_balance_score 2 [(⟨"a", "X"⟩ : Person), ⟨"b", "Y"⟩]) :=
  ⟨⟨by decide, by decide, by decide⟩,
    balance_score_depends_only_on_male_count 2 [⟨"a", "X"⟩, ⟨"b", "Y"⟩]
      [⟨"c", "여"⟩, ⟨"d", "Z"⟩] (by decide) (by decide) (by decide)⟩

/-- Counterexample to C1: with `N = 5`, `k = 2` (so `N mod k != 0`) the
session constructor does not fail — `SocialGroupingProgram.__init__`
contains no validation, so a session object is produced, with
`num_groups = 5 // 2 = 2`. -/
theorem session_construction_does_not_fail_cx :
    programInit cxPeople 2
      = { people := cxPeople, group_size := 2, num_groups := 2,
          previous_meetings := ∅, round_history := [], current_round := 0 }
    ∧ cxPeople.length % 2 ≠ 0 :=
  ⟨rfl, by decide⟩

/-- Claim C1 (amended): when `N mod k != 0` (with `k > 0`), constructing
the analyzer fails with the `ValueError` configuration error, but
constructing the session succeeds — `SocialGroupingProgram` performs no
validation and stores `num_groups = N // k`. -/
theorem invalid_config_fails_analyzer_only (people : List Person) (k : Nat)
    (hk : 0 < k) (hmod : people.length % k ≠ 0) :
    analyzerInit (people.length : Int) (k : Int)
        = Except.error AnalyzerError.invalidConfiguration
    ∧ programInit people k
        = { people := people, group_size := k, num_groups := people.length / k,
            previous_meetings := ∅, round_history := [], current_round := 0 } := by
  constructor
  · have hk0 : (k : Int) ≠ 0 := Int.natCast_ne_zero.mpr (Nat.pos_iff_ne_zero.mp hk)
    have hf : Int.fmod (people.length : Int) (k : Int) ≠ 0 := by
      rw [Int.fmod_eq_emod _ (Int.natCast_nonneg k), ← Int.natCast_mod]
      exact_mod_cast hmod
    unfold analyzerInit
    rw [if_neg hk0, if_pos hf]
  · rfl

/-- Witness for the amended C1 at `N = 5`, `k = 2`. -/
theorem invalid_config_fails_analyzer_only_witness :
    (0 < 2 ∧ cxPeople.length % 2 ≠ 0)
    ∧ (analyzerInit (cxPeople.length : Int) ((2 : Nat) : Int)
          = Except.error AnalyzerError.invalidConfiguration
      ∧ programInit cxPeople 2
          = { people := cxPeople, group_size := 2, num_groups := cxPeople.length / 2,
              previous_meetings := ∅, round_history := [], current_round := 0 }) :=
  ⟨⟨by decide, by decide⟩,
    invalid_config_fails_analyzer_only cxPeople 2 (by decide) (by decide)⟩

/-- Counterexample to C7: the claim says every `k < 2` makes analyzer
construction fail, but a negative group size passes every check — with
`N = 5`, `k = -1` Python computes `5 % -1 == 0`, `num_groups = -5`,
`pairs_per_group = 1`, `pairs_per_round = -5 != 0`, and the analyzer is
constructed (the source goes on to set `max_practical_rounds =
int(10 / -5) = -2`, a float-derived field outside the embedding). -/
theorem analyzer_accepts_negative_group_size_cx :
    (-1 : Int) < 2
    ∧ analyzerInit 5 (-1)
        = Except.ok { N := 5
                      n := -1
                      num_groups := -5
                      total_pairs := 10
                      pairs_per_group := 1
                      pairs_per_round := -5 } :=
  ⟨by decide, rfl⟩

/-- Claim C7 (amended): for every nonnegative `k < 2` (and any `N`),
analyzer construction fails at construction time — via
`ZeroDivisionError`, the division-by-zero failure the spec itself
attributes to `k < 2` (`k = 0` fails in `N % k`, `k = 1` makes
`pairs_per_round = 0` and fails in the rounds division); no analyzer
value is produced.  For negative `k` construction can succeed, so the
guarantee is restricted to `0 ≤ k`. -/
theorem small_group_size_fails_construction (N k : Int) (hk0 : 0 ≤ k) (hk2 : k < 2) :
    analyzerInit N k = Except.error AnalyzerError.zeroDivision := by
  have hcase : k = 0 ∨ k = 1 := by omega
  rcases hcase with rfl | rfl
  · unfold analyzerInit
    rw [if_pos rfl]
  · unfold analyzerInit
    rw [if_neg (by norm_num : (1 : Int) ≠ 0)]
    have hf : Int.fmod N 1 = 0 := by
      rw [Int.fmod_eq_emod _ (by norm_num)]
      exact Int.emod_one N
    rw [if_neg (not_not_intro hf)]
    have hz : Int.fdiv N 1 * Int.fdiv (1 * (1 - 1)) 2 = 0 := by
      have : (1 : Int) * (1 - 1) = 0 := by norm_num
      rw [this, Int.zero_fdiv, mul_zero]
    rw [if_pos hz]

/-- Witness for the amended C7 at `N = 7`, `k = 1`. -/
theorem small_group_size_fails_construction_witness :
    ((0 : Int) ≤ 1 ∧ (1 : Int) < 2)
    ∧ analyzerInit 7 1 = Except.error AnalyzerError.zeroDivision :=
  ⟨⟨by decide, by decide⟩,
    small_group_size_fails_construction 7 1 (by decide) (by decide)⟩

/-- Pairwise disjointness of a list of groups (no person occurs in two
distinct groups). -/
def disjointGroups : List (List Person) → Bool
  | [] => true
  | g :: rest =>
    (rest.all fun g2 => g.all fun p => !(g2.contains p)) && disjointGroups rest

/-- Modelled from the spec: the structural invariants the Round
Orchestrator is said to validate before commit — every group has size
exactly `k`, the groups jointly cover the whole population, and the
groups are pairwise disjoint.  `create_new_round` in the source contains
no such check, so this predicate exists only to state claim C6. -/
def specStructuralValid (group_size : Nat) (people : List Person)
    (groups : List (List Person)) : Bool :=
  (groups.all fun g => g.length == group_size)
    && (people.all fun p => groups.any fun g => g.contains p)
    && disjointGroups groups

/-- The partition the search engine produces from the identity shuffle
of `cxPeople` with two groups of two: person `"e"` is left out, so it is
not a partition of the population. -/
def cxGroups : List (List Person) :=
  [[⟨"a", "남"⟩, ⟨"b", "여"⟩], [⟨"c", "남"⟩, ⟨"d", "여"⟩]]

/-- The session state after `create_new_round` commits `cxGroups`. -/
def cxStateAfter : ProgramState :=
  { cxState with
      current_round := 1
      previous_meetings := add_meetings cxGroups cxState.previous_meetings
      round_history := [cxGroups] }

lemma create_new_round_some (st : ProgramState) (shuffles : List (List Person))
    (groups : List (List Person)) (st2 : ProgramState)
    (h : create_new_round st shuffles = some (groups, st2)) :
    st2 = { st with
            current_round := st.current_round + 1
            previous_meetings := add_meetings groups st.previous_meetings
            round_history := st.round_history ++ [groups] } := by
  unfold create_new_round at h
  rw [Option.map_eq_some'] at h
  obtain ⟨g0, _, heq⟩ := h
  rw [Prod.mk.injEq] at heq
  obtain ⟨h1, h2⟩ := heq
  subst h1
  subst h2
  rfl

/-- Counterexample to C6: with the 5-person population and `k = 2`, the
search engine returns a two-group partition leaving person `"e"`
uncovered; `create_new_round` raises no error and commits it to the
ledger — the round completes and the ledger is mutated although the
structural invariants fail. -/
theorem round_commits_without_validation_cx :
    create_new_round cxState [cxPeople] = some (cxGroups, cxStateAfter)
    ∧ specStructuralValid cxState.group_size cxState.people cxGroups = false
    ∧ cxStateAfter.previous_meetings ≠ cxState.previous_meetings := by
  refine ⟨rfl, rfl, ?_⟩
  intro h
  have hmem : canonPair "a" "b" ∈ cxStateAfter.previous_meetings := by
    show canonPair "a" "b" ∈ add_meetings cxGroups cxState.previous_meetings
    rw [add_meetings_eq_union]
    refine Finset.mem_union_right _ ?_
    show canonPair "a" "b" ∈ roundPairs cxGroups
    simp [roundPairs, groupPairs, cxGroups]
  rw [h] at hmem
  have hempty : cxState.previous_meetings = (∅ : Ledger) := rfl
  rw [hempty] at hmem
  exact absurd hmem (Finset.not_mem_empty _)

/-- Claim C6 (amended): `create_new_round` performs no structural
validation at all — whatever partition the search engine returns is
committed directly to the ledger and history, with no error path between
search and commit (there is no `StructuralViolation` in the source). -/
theorem create_new_round_commits_unvalidated (st : ProgramState)
    (shuffles : List (List Person)) (groups : List (List Person)) (st2 : ProgramState)
    (h : create_new_round st shuffles = some (groups, st2)) :
    st2.previous_meetings = add_meetings groups st.previous_meetings
    ∧ st2.round_history = st.round_history ++ [groups]
    ∧ st2.current_round = st.current_round + 1 := by
  rw [create_new_round_some st shuffles groups st2 h]
  exact ⟨rfl, rfl, rfl⟩

/-- Witness for the amended C6: the concrete round above is committed
unvalidated. -/
theorem create_new_round_commits_unvalidated_witness :
    cxStateAfter.previous_meetings = add_meetings cxGroups cxState.previous_meetings
    ∧ cxStateAfter.round_history = cxState.round_history ++ [cxGroups]
    ∧ cxStateAfter.current_round = cxState.current_round + 1 :=
  create_new_round_commits_unvalidated cxState [cxPeople] cxGroups cxStateAfter rfl

/-- Claim C8: across the session operations, only the commit step of
`create_new_round` mutates the ledger: the statistics and export
operations leave the state unchanged (their source bodies assign no
field), and a `go` step changes the ledger exactly by unioning the
committed groups' pair keys.  Cost evaluation itself
(`calculate_group_score` / `calculate_gender_balance_score` /
`totalScore`) reads the ledger as a plain argument and returns a number,
mirroring that the source methods only read `self.previous_meetings`. -/
theorem ledger_mutated_only_at_commit :
    (∀ st, sessionStep st Command.stat = some st)
    ∧ (∀ st, sessionStep st Command.save = some st)
    ∧ (∀ st shuffles st2, sessionStep st (Command.go shuffles) = some st2 →
        ∃ groups, st2.previous_meetings = st.previous_meetings ∪ roundPairs groups
          ∧ st2.people = st.people ∧ st2.group_size = st.group_size) := by
  refine ⟨fun st => rfl, fun st => rfl, ?_⟩
  intro st shuffles st2 h
  simp only [sessionStep] at h
  rw [Option.map_eq_some'] at h
  obtain ⟨⟨groups, st3⟩, hg, heq⟩ := h
  have hst3 : st3 = st2 := heq
  rw [← hst3]
  rw [create_new_round_some st shuffles groups st3 hg]
  exact ⟨groups, add_meetings_eq_union groups st.previous_meetings, rfl, rfl⟩

/-- Witness for C8 at the concrete session: a `stat` step leaves the
state unchanged and the concrete `go` step's ledger change is exactly
the committed groups' pair keys. -/
theorem ledger_mutated_only_at_commit_witness :
    sessionStep cxState Command.stat = some cxState
    ∧ (∃ groups, cxStateAfter.previous_meetings
          = cxState.previous_meetings ∪ roundPairs groups
        ∧ cxStateAfter.people = cxState.people
        ∧ cxStateAfter.group_size = cxState.group_size) :=
  ⟨ledger_mutated_only_at_commit.1 cxState,
    ledger_mutated_only_at_commit.2.2 cxState [cxPeople] cxStateAfter rfl⟩

/-- Witness for C3 at a concrete trace of one shuffle over the
five-person session. -/
theorem search_returns_sampled_minimum_witness :
    ([cxPeople] : List (List Person)) ≠ []
    ∧ ((∃ g, generate_groups_genetic cxState [cxPeople] = some g
        ∧ (∃ s ∈ [cxPeople], g = sliceGroups cxState.num_groups cxState.group_size s)
        ∧ (∀ s ∈ [cxPeople],
            totalScore cxState.group_size cxState.previous_meetings g
              ≤ totalScore cxState.group_size cxState.previous_meetings
                  (sliceGroups cxState.num_groups cxState.group_size s)))
      ∧ (∀ pre s rest, [cxPeople] = pre ++ s :: rest →
          totalScore cxState.group_size cxState.previous_meetings
              (sliceGroups cxState.num_groups cxState.group_size s) = 0 →
          generate_groups_genetic cxState [cxPeople]
            = generate_groups_genetic cxState (pre ++ [s]))) :=
  ⟨by simp, search_returns_sampled_minimum cxState [cxPeople] (by simp)⟩

end SocialGrouping
